import Mathlib

/-!
# Verification of the boat_fishing_point waypoint pipeline

A shallow embedding of the two Python source files
`scripts/deduplicate_gpx.py` and `scripts/gpx_utils.py`:

* the haversine distance functions (`haversine`, `haversine_distance`),
* the reef-category classifier (`extract_reef_type` over the `REEF_ABBREV`
  table),
* the greedy duplicate remover (`remove_duplicates`),
* the short-name generator (`generate_short_names`),
* the longitude-based region split performed in `main` (`splitOwn`),
* the waypoint parser's error behaviour (`parse_waypoints`), and
* the pairwise duplicate report (`find_duplicates`).

Floating point numbers are modelled as real numbers; Python strings as
Lean `String`s; Python dicts holding waypoint fields as Lean structures.
-/

namespace BoatFishing

/-! ## Decimal rendering of counters

Models Python's decimal rendering of a nonnegative integer (`str(n)` /
the `d` format code): the base-10 digits of `n`, most significant first,
as characters.  `Nat.digits` is little-endian, hence the `reverse`. -/

/-- The character for one decimal digit `d < 10` (`'0'` is code 48). -/
def digitChar10 (d : Nat) : Char := Char.ofNat (48 + d)

/-- Little-endian decimal digits of `n`, with explicit fuel (the fuel is
always sufficient at `fuel = n`); agrees with `Nat.digits 10` by
`decDigits_eq_digits` below. -/
def decDigitsAux : Nat → Nat → List Nat
  | _, 0 => []
  | 0, _ + 1 => []
  | fuel + 1, n + 1 => (n + 1) % 10 :: decDigitsAux fuel ((n + 1) / 10)

/-- Little-endian decimal digits of `n`. -/
def decDigits (n : Nat) : List Nat := decDigitsAux n n

/-- Decimal digit characters of `n`, most significant first (empty for 0;
the generator only ever renders counters `≥ 1`). -/
def natToDigitChars (n : Nat) : List Char :=
  ((decDigits n).reverse).map digitChar10

/-- Models Python's format spec `{:03d}` for a nonnegative integer: the
decimal rendering, left-padded with `'0'` to at least width 3.  For
renderings of 3 or more characters no padding is added (the field widens,
the number is never truncated). -/
def format03 (n : Nat) : String :=
  ⟨List.replicate (3 - (natToDigitChars n).length) '0' ++ natToDigitChars n⟩

/-! ## Substring containment

Models Python's `full_name in text` on strings, via the character lists. -/

/-- `leadsList p s` : the list `p` is an initial segment of `s`. -/
def leadsList : List Char → List Char → Bool
  | [], _ => true
  | _ :: _, [] => false
  | a :: ps, b :: ss => a == b && leadsList ps ss

/-- `occursIn p s` : `p` occurs contiguously somewhere inside `s`
(Python's `p in s` for strings). -/
def occursIn (p : List Char) : List Char → Bool
  | [] => leadsList p []
  | b :: ss => leadsList p (b :: ss) || occursIn p ss

/-- String-level wrapper for `occursIn`. -/
def strContains (text pat : String) : Bool :=
  occursIn pat.data text.data

/-! ## The reef-type abbreviation table

`REEF_ABBREV` from `deduplicate_gpx.py`, as an ordered list of
(pattern, abbreviation) pairs in the dict's insertion order.  The last
two entries carry the empty ("suppressing") abbreviation. -/

def REEF_ABBREV : List (String × String) := [
  ("사각형어초", "사각"),
  ("사각형", "사각"),
  ("사각", "사각"),
  ("잠보형어초", "잠보"),
  ("잠보형", "잠보"),
  ("테트라형어초", "테트라"),
  ("테트라형", "테트라"),
  ("테트라", "테트라"),
  ("대형전주어초", "대전주"),
  ("신요철형어초", "신요철"),
  ("신요철", "신요철"),
  ("팔각상자형강제어초", "팔각"),
  ("팔각상자형강제", "팔각"),
  ("팔각상자형어초", "팔각"),
  ("폴리콘어초", "폴리콘"),
  ("대형강제어초", "대강제"),
  ("강제고기굴어초", "고기굴"),
  ("뿔삼각형어초", "뿔삼각"),
  ("연약지반용강제어초", "연약"),
  ("돔형증식어초", "돔형"),
  ("돔형중식", "돔형"),
  ("원통형", "원통"),
  ("원통", "원통"),
  ("2단상자형강제어초", "2단상자"),
  ("2단상자강제형어초", "2단상자"),
  ("단상자형강제어초", "2단상자"),
  ("단상자형강제", "2단상자"),
  ("날개부를가진어초", "날개"),
  ("날개부", "날개"),
  ("석재조합식어초", "석재"),
  ("텐트형어초", "텐트"),
  ("텐트형인공어초", "텐트"),
  ("텐트형", "텐트"),
  ("다면체인공어초", "다면체"),
  ("아치형어초", "아치"),
  ("아치형", "아치"),
  ("사각전주어초", "사전주"),
  ("시험어초사각전주", "사전주"),
  ("정삼각뿔어초", "정삼각"),
  ("정삼각뿔형어초", "정삼각"),
  ("시험어초", "시험"),
  ("피라미드강제어초", "피라미드"),
  ("이중돔형어초", "이중돔"),
  ("계단형인공어초", "계단"),
  ("계단식어초", "계단"),
  ("탑기단형강제어초", "탑기단"),
  ("삼단격실형강제어초", "삼단격실"),
  ("삼단격실형인공어초", "삼단격실"),
  ("사다리꼴복합강제어초", "사다리"),
  ("사다리꼴복합어초", "사다리"),
  ("팔각별강제어초", "팔각별"),
  ("터널형어초", "터널"),
  ("터널형", "터널"),
  ("방사형인공어초", "방사형"),
  ("방사형어초", "방사형"),
  ("원통2단강제어초", "원통2단"),
  ("유선형어초", "유선형"),
  ("유선형격판이있는대형사각어초", "유선사각"),
  ("용승유도형인공어초", "용승"),
  ("상자형강제", "상자강제"),
  ("빔어초", "빔"),
  ("다기능성어초", "다기능"),
  ("다기능삼각형어초", "다기능삼각"),
  ("패조류용황토어초", "황토"),
  ("팔각반구형중형", "팔각반구"),
  ("팔각반구형소형강제어초", "팔각반구"),
  ("트리톤", "트리톤"),
  ("사단경사형어초", "사단경사"),
  ("복합형", "복합"),
  ("침목", "침목"),
  ("육각패널", "육각"),
  ("삼곡면어패류용어초", "삼곡면"),
  ("단강제어초", "단강제"),
  ("보강", ""),
  ("추가", "")]

/-! ## The classifier (`extract_reef_type`)

Python sorts the table items by descending pattern length with a stable
sort (`sorted(items, key=lambda x: -len(x[0]))`) and scans for the first
pattern contained in the text whose abbreviation is non-empty. -/

/-- One step of a stable insertion sort by strictly descending pattern
length: `x` is placed before the first entry whose pattern is no longer
than `x`'s, so among equal lengths earlier entries stay first.  Models
the stability guarantee of Python's `sorted`. -/
def insertByLen (x : String × String) : List (String × String) → List (String × String)
  | [] => [x]
  | y :: ys => if y.1.length ≤ x.1.length then x :: y :: ys else y :: insertByLen x ys

/-- Stable sort of the table by descending pattern length
(`sorted(REEF_ABBREV.items(), key=lambda x: -len(x[0]))`). -/
def sortByLenDesc (l : List (String × String)) : List (String × String) :=
  l.foldr insertByLen []

/-- The inner scan of `extract_reef_type`: first entry (in the given
order) whose pattern occurs in `text`; an entry with an empty
abbreviation is skipped (`if abbrev:`) and the scan continues. -/
def findAbbrevIn (text : String) : List (String × String) → Option String
  | [] => none
  | (pat, ab) :: rest =>
    if strContains text pat then
      (if ab ≠ "" then some ab else findAbbrevIn text rest)
    else findAbbrevIn text rest

/-- One text of the `for text in [name, desc]` loop: an empty text is
skipped (`if not text: continue`), otherwise the sorted table is
scanned. -/
def tryText (text : String) : Option String :=
  if text = "" then none else findAbbrevIn text (sortByLenDesc REEF_ABBREV)

/-- First defined result wins (an early `return` out of the two-text
loop). -/
def orElseOpt (a b : Option String) : Option String :=
  match a with
  | some ab => some ab
  | none => b

/-- `extract_reef_type(name, desc)` from `deduplicate_gpx.py`: the name
is tried first, then the description; `none` models Python's `None`. -/
def extract_reef_type (name desc : String) : Option String :=
  orElseOpt (tryText name) (tryText desc)

/-! ### Specification-side classifier

Written from the spec's words: among the table entries whose pattern is
a substring of the text and whose abbreviation is non-suppressing, the
longest pattern wins, ties broken by table declaration order (first
listed wins).  Compared with `extract_reef_type` in claim C2. -/

/-- An entry matches `text` if its pattern occurs in `text` and its
abbreviation is not the suppressing empty marker. -/
def goodEntry (text : String) (e : String × String) : Bool :=
  strContains text e.1 && e.2 != ""

/-- The best (longest; first-listed on ties) matching entry of a table,
per the spec's words.  The head of the list wins a tie against any later
entry of equal pattern length. -/
def bestOf (text : String) : List (String × String) → Option (String × String)
  | [] => none
  | e :: rest =>
    match bestOf text rest with
    | none => if goodEntry text e then some e else none
    | some b =>
      if goodEntry text e then
        (if b.1.length ≤ e.1.length then some e else some b)
      else some b

/-- The step of `bestOf`: challenge the best-so-far of the tail with the
head entry (the head wins ties, being listed first). -/
def combineBest (text : String) (x : String × String) :
    Option (String × String) → Option (String × String)
  | none => if goodEntry text x then some x else none
  | some b =>
    if goodEntry text x then
      (if b.1.length ≤ x.1.length then some x else some b)
    else some b

/-- Spec-side classifier: best match of the label, else best match of
the note, else the sentinel. -/
def classifySpec (name desc : String) : Option String :=
  orElseOpt ((bestOf name REEF_ABBREV).map (fun e => e.2))
    ((bestOf desc REEF_ABBREV).map (fun e => e.2))

/-- First entry of a list satisfying `goodEntry text` (entry-valued
variant of `findAbbrevIn`, used to relate scan and maximum). -/
def findFirstGood (text : String) : List (String × String) → Option (String × String)
  | [] => none
  | e :: rest => if goodEntry text e then some e else findFirstGood text rest

/-! ## Waypoints and the haversine distance (`deduplicate_gpx.py`)

Floats are modelled as real numbers. -/

/-- `DUPLICATE_RADIUS_M = 10` (meters). -/
def DUPLICATE_RADIUS_M : ℝ := 10

/-- `LON_BOUNDARY = 127.5` (degrees), west/east split. -/
noncomputable def LON_BOUNDARY : ℝ := 127.5

/-- Degrees to radians (`math.radians`). -/
noncomputable def radians (x : ℝ) : ℝ := x * Real.pi / 180

/-- `haversine(lat1, lon1, lat2, lon2)` from `deduplicate_gpx.py`:
Earth radius `R = 6371000` m, `a = sin²(Δlat/2) + cos lat1 · cos lat2 ·
sin²(Δlon/2)`, `c = 2·asin(√a)`, result `R·c`.  All four inputs are
converted from degrees to radians first. -/
noncomputable def haversine (lat1 lon1 lat2 lon2 : ℝ) : ℝ :=
  6371000 * (2 * Real.arcsin (Real.sqrt (
    Real.sin ((radians lat2 - radians lat1) / 2) ^ 2 +
    Real.cos (radians lat1) * Real.cos (radians lat2) *
      Real.sin ((radians lon2 - radians lon1) / 2) ^ 2)))

/-- A parsed waypoint record, as built by `parse_waypoints` in
`deduplicate_gpx.py` (a Python dict with these keys); `short_name` is
absent (`none`) until `generate_short_names` runs. -/
structure Waypoint where
  lat : ℝ
  lon : ℝ
  original_name : String
  desc : String
  cmt : String
  sym : String
  source_type : String
  short_name : Option String

/-- Distance between two waypoint records. -/
noncomputable def wdist (a b : Waypoint) : ℝ :=
  haversine a.lat a.lon b.lat b.lon

/-- Two records separated by more than `r` meters, measured in both
argument orders. -/
def wpSeparated (r : ℝ) (a b : Waypoint) : Prop :=
  r < wdist a b ∧ r < wdist b a

/-! ## The greedy deduplicator (`remove_duplicates`) -/

open Classical in
/-- One iteration of the `for wpt in waypoints` loop of
`remove_duplicates`: the candidate is dropped iff its distance to some
already-accepted record in `unique` is `≤ radius`; otherwise it is
appended. -/
noncomputable def dedupStep (radius : ℝ) (unique : List Waypoint) (wpt : Waypoint) :
    List Waypoint :=
  if ∃ existing ∈ unique, wdist wpt existing ≤ radius then unique
  else unique ++ [wpt]

/-- `remove_duplicates(waypoints, radius_m)`: the loop starting from the
empty accepted list (`unique = []`; the early return for an empty input
returns `[]` as well). -/
noncomputable def remove_duplicates (waypoints : List Waypoint) (radius : ℝ) :
    List Waypoint :=
  waypoints.foldl (dedupStep radius) []

/-! ## The short-name generator (`generate_short_names`) -/

/-- The naming prefix of a waypoint: `'own'`/`'oth'` for the own/other
source types, otherwise (reef) the classifier's abbreviation, falling
back to `'어초'` when classification yields `None`. -/
def namePfx (w : Waypoint) : String :=
  if w.source_type = "own" then "own"
  else if w.source_type = "other" then "oth"
  else
    match extract_reef_type w.original_name w.desc with
    | some reefType => reefType
    | none => "어초"

/-- One iteration of `generate_short_names`'s loop: bump the per-prefix
counter (`counters`, modelled as a total function that is 0 on unseen
prefixes) and emit `f"{prefix}_{counters[prefix]:03d}"`. -/
def genStep (acc : (String → Nat) × List Waypoint) (w : Waypoint) :
    (String → Nat) × List Waypoint :=
  let pfx := namePfx w
  let c := acc.1 pfx + 1
  (fun k => if k = pfx then c else acc.1 k,
   acc.2 ++ [{ w with short_name := some (pfx ++ "_" ++ format03 c) }])

/-- `generate_short_names(waypoints)`: fresh counters on every
invocation, records processed in iteration order. -/
def generate_short_names (waypoints : List Waypoint) : List Waypoint :=
  (waypoints.foldl genStep ((fun _ => 0), [])).2

/-- The number of records in `l` that carry naming prefix `p` (used to
state which counter value each record receives). -/
def pfxCount (l : List Waypoint) (p : String) : Nat :=
  (l.filter (fun w => namePfx w == p)).length

/-- The record `w` carrying the short name generated for counter value
`c`: the other fields are unchanged and `short_name` becomes
`{prefix}_{c:03d}`. -/
def withName (w : Waypoint) (c : Nat) : Waypoint :=
  { w with short_name := some (namePfx w ++ "_" ++ format03 c) }

/-- The names assigned by one generator run, relative to the records
`pre` already processed before it: each record receives its prefix's
occurrence count so far plus one.  Helper for characterising the fold of
`generate_short_names`. -/
def nameRun (pre : List Waypoint) : List Waypoint → List Waypoint
  | [] => []
  | w :: ws =>
    withName w (pfxCount pre (namePfx w) + 1) :: nameRun (pre ++ [w]) ws

/-! ## The region split in `main` (`deduplicate_gpx.py`)

Only the `my_own_points` source is split per point by longitude
(`lon < LON_BOUNDARY` goes west, `lon >= LON_BOUNDARY` goes east); the
other source files are extended wholesale into their region's list. -/

open Classical in
/-- The two longitude filters applied to the `'own'` waypoints:
`my_west = [p for p in my_points if p['lon'] < LON_BOUNDARY]` and
`my_east = [p for p in my_points if p['lon'] >= LON_BOUNDARY]`. -/
noncomputable def splitOwn (my_points : List Waypoint) :
    List Waypoint × List Waypoint :=
  (my_points.filter (fun p => decide (p.lon < LON_BOUNDARY)),
   my_points.filter (fun p => decide (LON_BOUNDARY ≤ p.lon)))

/-- Assembly of the west candidate list in `main`: statically tagged
west sources followed by the `'own'` points west of the boundary. -/
noncomputable def collectWest (west_reef west_other my_points : List Waypoint) :
    List Waypoint :=
  west_reef ++ west_other ++ (splitOwn my_points).1

/-- Assembly of the east candidate list in `main`: statically tagged
east sources followed by the `'own'` points at or east of the
boundary. -/
noncomputable def collectEast (east_reef my_points : List Waypoint) :
    List Waypoint :=
  east_reef ++ (splitOwn my_points).2

/-! ## The parser's error behaviour (`parse_waypoints`)

The XML codec is external; a source document is modelled as `none` when
`ET.parse`/`findall` itself raises, or `some elems` with the raw `<wpt>`
elements.  A raw element's `lat`/`lon` is `none` when `float()` would
raise on it (missing or non-numeric attribute). -/

/-- A raw `<wpt>` element as seen by the parsing loop. -/
structure RawWpt where
  lat : Option ℝ
  lon : Option ℝ
  name : Option String
  desc : Option String
  cmt : Option String
  sym : Option String

/-- Building one waypoint dict from a raw element with parsed
coordinates: `original_name` is `name_text or desc_text` (Python
falsy-or), `sym` defaults to `'Fish'`. -/
def convertRaw (source_type : String) (e : RawWpt) (la lo : ℝ) : Waypoint :=
  let nameText := e.name.getD ""
  let descText := e.desc.getD ""
  { lat := la, lon := lo,
    original_name := if nameText = "" then descText else nameText,
    desc := descText,
    cmt := e.cmt.getD "",
    sym := e.sym.getD "Fish",
    source_type := source_type,
    short_name := none }

/-- The `for wpt in wpt_elements` loop inside the `try` block: on the
first element whose `lat` or `lon` fails to convert, the exception
aborts the loop and the records accumulated so far are returned (the
`except` clause only prints). -/
def parseGo (source_type : String) : List RawWpt → List Waypoint → List Waypoint
  | [], acc => acc
  | e :: rest, acc =>
    match e.lat, e.lon with
    | some la, some lo => parseGo source_type rest (acc ++ [convertRaw source_type e la lo])
    | _, _ => acc

/-- `parse_waypoints(gpx_file, source_type)`: an unreadable document
contributes nothing; otherwise the element loop runs until it finishes
or a coordinate conversion raises. -/
def parse_waypoints (doc : Option (List RawWpt)) (source_type : String) :
    List Waypoint :=
  match doc with
  | none => []
  | some elems => parseGo source_type elems []

/-- Whether the `except` branch (the error report) is reached for a
document: the document itself fails to parse, or some element has an
unconvertible coordinate. -/
def parseFailed (doc : Option (List RawWpt)) : Bool :=
  match doc with
  | none => true
  | some elems => elems.any (fun e => e.lat.isNone || e.lon.isNone)

/-- Whether every coordinate of a raw element converts (the loop passes
it without raising). -/
def rawOk (e : RawWpt) : Bool := e.lat.isSome && e.lon.isSome

/-- The waypoint a passing raw element becomes (coordinates are present
when this is applied). -/
noncomputable def convertRawD (source_type : String) (e : RawWpt) : Waypoint :=
  convertRaw source_type e (e.lat.getD 0) (e.lon.getD 0)

/-! ## `gpx_utils.py`: `haversine_distance` and `find_duplicates` -/

/-- `math.atan2(y, x)` (the C/IEEE definition on the reals, ignoring
signed zeros and infinities, which the callers never produce). -/
noncomputable def atan2 (y x : ℝ) : ℝ :=
  if 0 < x then Real.arctan (y / x)
  else if x < 0 ∧ 0 ≤ y then Real.arctan (y / x) + Real.pi
  else if x < 0 then Real.arctan (y / x) - Real.pi
  else if 0 < y then Real.pi / 2
  else if y < 0 then -(Real.pi / 2)
  else 0

/-- `haversine_distance(lat1, lon1, lat2, lon2)` from `gpx_utils.py`:
same `a` as `haversine`, but `c = 2·atan2(√a, √(1−a))`. -/
noncomputable def haversine_distance (lat1 lon1 lat2 lon2 : ℝ) : ℝ :=
  6371000 * (2 * atan2
    (Real.sqrt (
      Real.sin ((radians lat2 - radians lat1) / 2) ^ 2 +
      Real.cos (radians lat1) * Real.cos (radians lat2) *
        Real.sin ((radians lon2 - radians lon1) / 2) ^ 2))
    (Real.sqrt (1 -
      (Real.sin ((radians lat2 - radians lat1) / 2) ^ 2 +
       Real.cos (radians lat1) * Real.cos (radians lat2) *
         Real.sin ((radians lon2 - radians lon1) / 2) ^ 2))))

/-- A waypoint dict as built by `parse_gpx` in `gpx_utils.py`. -/
structure GWaypoint where
  lat : ℝ
  lon : ℝ
  name : String
  description : String
  comment : String
  time : String
  symbol : String
  source_file : String

/-- Default record used for positional lookup (the loops only index
within bounds, so the default is never observed). -/
noncomputable def gdefault : GWaypoint :=
  { lat := 0, lon := 0, name := "", description := "", comment := "",
    time := "", symbol := "", source_file := "" }

/-- Distance between the records at positions `i` and `j`. -/
noncomputable def gdistAt (ws : List GWaypoint) (i j : Nat) : ℝ :=
  haversine_distance (ws.getD i gdefault).lat (ws.getD i gdefault).lon
    (ws.getD j gdefault).lat (ws.getD j gdefault).lon

/-- Python's `round(x, 2)` on the reals: scale by 100, round half to
even, unscale. -/
noncomputable def pyRound2 (x : ℝ) : ℝ :=
  (if Int.fract (x * 100) = 1 / 2 then ((2 * round (x * 100 / 2) : ℤ) : ℝ)
   else ((round (x * 100) : ℤ) : ℝ)) / 100

/-- One duplicate-report entry appended by `find_duplicates`. -/
structure DupEntry where
  point1_idx : Nat
  point1_name : String
  point1_source : String
  point1_lat : ℝ
  point1_lon : ℝ
  point2_idx : Nat
  point2_name : String
  point2_source : String
  point2_lat : ℝ
  point2_lon : ℝ
  distance_m : ℝ

/-- The name reported for a record: `name or description`
(Python falsy-or). -/
def gname (w : GWaypoint) : String :=
  if w.name = "" then w.description else w.name

/-- The entry built for the pair `(i, j)`: both indices, names, sources
and coordinates, plus the distance rounded to two decimals. -/
noncomputable def mkEntry (ws : List GWaypoint) (i j : Nat) : DupEntry :=
  { point1_idx := i,
    point1_name := gname (ws.getD i gdefault),
    point1_source := (ws.getD i gdefault).source_file,
    point1_lat := (ws.getD i gdefault).lat,
    point1_lon := (ws.getD i gdefault).lon,
    point2_idx := j,
    point2_name := gname (ws.getD j gdefault),
    point2_source := (ws.getD j gdefault).source_file,
    point2_lat := (ws.getD j gdefault).lat,
    point2_lon := (ws.getD j gdefault).lon,
    distance_m := pyRound2 (gdistAt ws i j) }

open Classical in
/-- `find_duplicates(waypoints, distance_threshold)`: the nested loops
`for i in range(n): for j in range(i+1, n):` appending an entry whenever
the distance is `≤ distance_threshold`. -/
noncomputable def find_duplicates (ws : List GWaypoint) (threshold : ℝ) :
    List DupEntry :=
  (List.range ws.length).flatMap (fun i =>
    (List.range' (i + 1) (ws.length - (i + 1))).filterMap (fun j =>
      if gdistAt ws i j ≤ threshold then some (mkEntry ws i j) else none))

/-- All index pairs `(i, j)` with `i < j < n`, in lexicographically
increasing order: the square `range n × range n` (which `List.product`
enumerates lexicographically) restricted to the upper triangle.
Spec-side description of the report's index set and order. -/
def allPairsLex (n : Nat) : List (Nat × Nat) :=
  ((List.range n).product (List.range n)).filter (fun p => decide (p.1 < p.2))

open Classical in
/-- Spec-side duplicate report: one entry per pair `(i, j)`, `i < j`,
within the threshold, in lexicographic pair order. -/
noncomputable def dup_spec (ws : List GWaypoint) (threshold : ℝ) : List DupEntry :=
  ((allPairsLex ws.length).filter
    (fun p => decide (gdistAt ws p.1 p.2 ≤ threshold))).map
    (fun p => mkEntry ws p.1 p.2)

/-- Strict lexicographic order on the index fields of two report
entries. -/
def entryLexLt (d1 d2 : DupEntry) : Prop :=
  d1.point1_idx < d2.point1_idx ∨
    (d1.point1_idx = d2.point1_idx ∧ d1.point2_idx < d2.point2_idx)

/-! ## Concrete sample records used in witnesses and counterexamples -/

/-- A reef-source record labelled `사각형어초` (classifies to `사각`). -/
noncomputable def sampleReef : Waypoint :=
  { lat := 37, lon := 126, original_name := "사각형어초", desc := "",
    cmt := "", sym := "Fish", source_type := "reef", short_name := none }

/-- An `'own'`-source record just west of the boundary (longitude
127.4). -/
noncomputable def ownWest : Waypoint :=
  { lat := 36, lon := 127.4, original_name := "W", desc := "", cmt := "",
    sym := "Fish", source_type := "own", short_name := none }

/-- An `'own'`-source record exactly on the boundary (longitude
127.5). -/
noncomputable def ownEast : Waypoint :=
  { lat := 36, lon := 127.5, original_name := "E", desc := "", cmt := "",
    sym := "Fish", source_type := "own", short_name := none }

/-- Equatorial record at longitude 0. -/
noncomputable def cw : Waypoint :=
  { lat := 0, lon := 0, original_name := "C", desc := "", cmt := "",
    sym := "Fish", source_type := "own", short_name := none }

/-- Equatorial record at longitude 0.00005 (about 5.6 m east of `cw`). -/
noncomputable def ca : Waypoint :=
  { lat := 0, lon := 0.00005, original_name := "A", desc := "", cmt := "",
    sym := "Fish", source_type := "own", short_name := none }

/-- Equatorial record at longitude 0.0001 (about 11.1 m east of `cw`,
about 5.6 m east of `ca`). -/
noncomputable def cb : Waypoint :=
  { lat := 0, lon := 0.0001, original_name := "B", desc := "", cmt := "",
    sym := "Fish", source_type := "own", short_name := none }

/-- A raw element whose coordinates both convert. -/
noncomputable def rawGoodEx : RawWpt :=
  { lat := some 37, lon := some 127, name := some "good", desc := none,
    cmt := none, sym := none }

/-- A raw element whose latitude does not convert (models a non-numeric
`lat` attribute, on which `float()` raises). -/
def rawBadEx : RawWpt :=
  { lat := none, lon := none, name := some "bad", desc := none,
    cmt := none, sym := none }

/-! # Lemmas and claim theorems -/

/-! ## The classifier: scan of the sorted table = longest match (C2) -/

lemma findAbbrevIn_eq_findFirstGood (text : String) (l : List (String × String)) :
    findAbbrevIn text l = (findFirstGood text l).map (fun e => e.2) := by
  induction l with
  | nil => rfl
  | cons e rest ih =>
    obtain ⟨pat, ab⟩ := e
    by_cases hsc : strContains text pat
    · by_cases hab : ab = ""
      · subst hab
        simp [findAbbrevIn, findFirstGood, goodEntry, hsc, ih]
      · simp [findAbbrevIn, findFirstGood, goodEntry, hsc, hab]
    · simp [findAbbrevIn, findFirstGood, goodEntry, hsc, ih]

lemma findFirstGood_mem {text : String} {l : List (String × String)}
    {b : String × String} (h : findFirstGood text l = some b) : b ∈ l := by
  induction l with
  | nil => simp [findFirstGood] at h
  | cons e rest ih =>
    by_cases hg : goodEntry text e
    · rw [findFirstGood, if_pos hg] at h
      simp_all
    · rw [findFirstGood, if_neg hg] at h
      exact List.mem_cons_of_mem _ (ih h)

lemma mem_insertByLen {x z : String × String} {s : List (String × String)} :
    z ∈ insertByLen x s ↔ z = x ∨ z ∈ s := by
  induction s with
  | nil => simp [insertByLen]
  | cons y ys ih =>
    by_cases h : y.1.length ≤ x.1.length
    · simp [insertByLen, h]
    · simp only [insertByLen, if_neg h, List.mem_cons, ih]
      tauto

lemma pairwise_insertByLen {x : String × String} {s : List (String × String)}
    (hs : s.Pairwise (fun a b => b.1.length ≤ a.1.length)) :
    (insertByLen x s).Pairwise (fun a b => b.1.length ≤ a.1.length) := by
  induction s with
  | nil => simp [insertByLen]
  | cons y ys ih =>
    rcases List.pairwise_cons.mp hs with ⟨hy, hys⟩
    by_cases h : y.1.length ≤ x.1.length
    · rw [insertByLen, if_pos h]
      refine List.pairwise_cons.mpr ⟨?_, hs⟩
      intro b hb
      rcases List.mem_cons.mp hb with rfl | hb
      · exact h
      · exact le_trans (hy b hb) h
    · rw [insertByLen, if_neg h]
      refine List.pairwise_cons.mpr ⟨?_, ih hys⟩
      intro b hb
      rcases mem_insertByLen.mp hb with rfl | hb
      · exact le_of_not_le h
      · exact hy b hb

lemma sortByLenDesc_pairwise (l : List (String × String)) :
    (sortByLenDesc l).Pairwise (fun a b => b.1.length ≤ a.1.length) := by
  induction l with
  | nil => simp [sortByLenDesc]
  | cons x xs ih => exact pairwise_insertByLen ih

lemma bestOf_cons (text : String) (e : String × String)
    (rest : List (String × String)) :
    bestOf text (e :: rest) = combineBest text e (bestOf text rest) := by
  cases h : bestOf text rest <;> simp [bestOf, combineBest, h]

lemma findFirstGood_insertByLen (text : String) (x : String × String)
    {s : List (String × String)}
    (hs : s.Pairwise (fun a b => b.1.length ≤ a.1.length)) :
    findFirstGood text (insertByLen x s) =
      combineBest text x (findFirstGood text s) := by
  induction s with
  | nil =>
    cases hgx : goodEntry text x <;>
      simp [insertByLen, findFirstGood, combineBest, hgx]
  | cons y ys ih =>
    rcases List.pairwise_cons.mp hs with ⟨hy, hys⟩
    by_cases hlen : y.1.length ≤ x.1.length
    · rw [insertByLen, if_pos hlen]
      by_cases hgx : goodEntry text x
      · cases hb : findFirstGood text (y :: ys) with
        | none => simp [findFirstGood, combineBest, hgx, hb]
        | some b =>
          have hbmem := findFirstGood_mem hb
          have hble : b.1.length ≤ y.1.length := by
            rcases List.mem_cons.mp hbmem with rfl | hmem
            · exact le_refl _
            · exact hy b hmem
          simp [findFirstGood, combineBest, hgx, hb, le_trans hble hlen]
      · cases hb : findFirstGood text (y :: ys) <;>
          rw [findFirstGood, if_neg hgx, hb] <;>
          simp [combineBest, hgx]
    · rw [insertByLen, if_neg hlen]
      by_cases hgy : goodEntry text y
      · by_cases hgx : goodEntry text x <;>
          simp [findFirstGood, combineBest, hgy, hgx, hlen]
      · rw [findFirstGood, if_neg hgy, findFirstGood, if_neg hgy, ih hys]

lemma findFirstGood_sort_eq_bestOf (text : String) (l : List (String × String)) :
    findFirstGood text (sortByLenDesc l) = bestOf text l := by
  induction l with
  | nil => rfl
  | cons e rest ih =>
    have hrw : sortByLenDesc (e :: rest) = insertByLen e (sortByLenDesc rest) := rfl
    rw [hrw, findFirstGood_insertByLen text e (sortByLenDesc_pairwise rest), ih,
      bestOf_cons]

lemma strContains_empty_text {pat : String} (h : pat ≠ "") :
    strContains "" pat = false := by
  show leadsList pat.data [] = false
  cases hd : pat.data with
  | nil => exact absurd (String.ext hd) h
  | cons c cs => rfl

lemma bestOf_eq_none (text : String) {l : List (String × String)}
    (h : ∀ e ∈ l, goodEntry text e = false) : bestOf text l = none := by
  induction l with
  | nil => rfl
  | cons e rest ih =>
    rw [bestOf_cons, ih (fun x hx => h x (List.mem_cons_of_mem _ hx))]
    simp [combineBest, h e (List.mem_cons_self _ _)]

lemma bestOf_empty_text : bestOf "" REEF_ABBREV = none := by
  have hall : ∀ e ∈ REEF_ABBREV, e.1 ≠ "" := by decide
  refine bestOf_eq_none "" ?_
  intro e he
  simp [goodEntry, strContains_empty_text (hall e he)]

lemma tryText_eq_bestOf (text : String) :
    tryText text = (bestOf text REEF_ABBREV).map (fun e => e.2) := by
  by_cases h : text = ""
  · subst h
    rw [tryText, if_pos rfl, bestOf_empty_text]
    rfl
  · rw [tryText, if_neg h, findAbbrevIn_eq_findFirstGood,
      findFirstGood_sort_eq_bestOf]

lemma extract_eq_classifySpec (name desc : String) :
    extract_reef_type name desc = classifySpec name desc := by
  rw [extract_reef_type, classifySpec, tryText_eq_bestOf, tryText_eq_bestOf]

/-- C2: for every label and note, `extract_reef_type` returns the
abbreviation of the longest table pattern occurring in the label whose
abbreviation is non-suppressing (first-listed wins ties), falling back
to the note and then to the sentinel `none`; and the label
`2단상자형강제어초 보강` classifies to `2단상자`. -/
theorem C2_extract_reef_type_longest_nonsuppressed_match :
    (∀ name desc, extract_reef_type name desc = classifySpec name desc) ∧
    extract_reef_type "2단상자형강제어초 보강" "" = some "2단상자" :=
  ⟨extract_eq_classifySpec, by decide⟩

/-! ## The distance metrics (C7) -/

lemma sin_half_sq_symm (x y : ℝ) :
    Real.sin ((x - y) / 2) ^ 2 = Real.sin ((y - x) / 2) ^ 2 := by
  rw [show x - y = -(y - x) by ring, neg_div, Real.sin_neg, neg_sq]

lemma haversine_self (lat lon : ℝ) : haversine lat lon lat lon = 0 := by
  simp [haversine]

lemma haversine_symm (lat1 lon1 lat2 lon2 : ℝ) :
    haversine lat1 lon1 lat2 lon2 = haversine lat2 lon2 lat1 lon1 := by
  rw [haversine, haversine, sin_half_sq_symm (radians lat2) (radians lat1),
    sin_half_sq_symm (radians lon2) (radians lon1),
    mul_comm (Real.cos (radians lat1)) (Real.cos (radians lat2))]

lemma haversine_nonneg (lat1 lon1 lat2 lon2 : ℝ) :
    0 ≤ haversine lat1 lon1 lat2 lon2 := by
  rw [haversine]
  have h := Real.arcsin_nonneg.mpr (Real.sqrt_nonneg
    (Real.sin ((radians lat2 - radians lat1) / 2) ^ 2 +
     Real.cos (radians lat1) * Real.cos (radians lat2) *
       Real.sin ((radians lon2 - radians lon1) / 2) ^ 2))
  nlinarith

lemma arctan_nonneg_of_nonneg {t : ℝ} (h : 0 ≤ t) : 0 ≤ Real.arctan t := by
  calc (0:ℝ) = Real.arctan 0 := Real.arctan_zero.symm
    _ ≤ Real.arctan t := Real.arctan_strictMono.monotone h

lemma atan2_zero_one : atan2 0 1 = 0 := by
  rw [atan2, if_pos one_pos]
  norm_num [Real.arctan_zero]

lemma atan2_nonneg {y x : ℝ} (hy : 0 ≤ y) (hx : 0 ≤ x) : 0 ≤ atan2 y x := by
  rw [atan2]
  split_ifs with h1 h2 h3 h4 h5
  · exact arctan_nonneg_of_nonneg (div_nonneg hy (le_of_lt h1))
  · exact absurd h2.1 (not_lt.mpr hx)
  · exact absurd h3 (not_lt.mpr hx)
  · positivity
  · exact absurd h5 (not_lt.mpr hy)
  · exact le_refl 0

lemma haversine_distance_self (lat lon : ℝ) :
    haversine_distance lat lon lat lon = 0 := by
  rw [haversine_distance]
  simp only [sub_self, zero_div, Real.sin_zero, ne_eq, OfNat.ofNat_ne_zero,
    not_false_eq_true, zero_pow, mul_zero, add_zero, Real.sqrt_zero, sub_zero,
    Real.sqrt_one, atan2_zero_one]

lemma haversine_distance_symm (lat1 lon1 lat2 lon2 : ℝ) :
    haversine_distance lat1 lon1 lat2 lon2 =
      haversine_distance lat2 lon2 lat1 lon1 := by
  rw [haversine_distance, haversine_distance,
    sin_half_sq_symm (radians lat2) (radians lat1),
    sin_half_sq_symm (radians lon2) (radians lon1),
    mul_comm (Real.cos (radians lat1)) (Real.cos (radians lat2))]

lemma haversine_distance_nonneg (lat1 lon1 lat2 lon2 : ℝ) :
    0 ≤ haversine_distance lat1 lon1 lat2 lon2 := by
  rw [haversine_distance]
  have h := atan2_nonneg (Real.sqrt_nonneg
      (Real.sin ((radians lat2 - radians lat1) / 2) ^ 2 +
       Real.cos (radians lat1) * Real.cos (radians lat2) *
         Real.sin ((radians lon2 - radians lon1) / 2) ^ 2))
    (Real.sqrt_nonneg (1 -
      (Real.sin ((radians lat2 - radians lat1) / 2) ^ 2 +
       Real.cos (radians lat1) * Real.cos (radians lat2) *
         Real.sin ((radians lon2 - radians lon1) / 2) ^ 2)))
  nlinarith

/-- C7: within the valid coordinate ranges, both distance functions are
zero on identical points, symmetric, and non-negative. -/
theorem C7_distance_zero_symmetric_nonneg :
    ∀ lat1 lon1 lat2 lon2 : ℝ,
      -90 ≤ lat1 → lat1 ≤ 90 → -90 ≤ lat2 → lat2 ≤ 90 →
      -180 ≤ lon1 → lon1 ≤ 180 → -180 ≤ lon2 → lon2 ≤ 180 →
      (haversine lat1 lon1 lat1 lon1 = 0 ∧
       haversine lat1 lon1 lat2 lon2 = haversine lat2 lon2 lat1 lon1 ∧
       0 ≤ haversine lat1 lon1 lat2 lon2) ∧
      (haversine_distance lat1 lon1 lat1 lon1 = 0 ∧
       haversine_distance lat1 lon1 lat2 lon2 =
         haversine_distance lat2 lon2 lat1 lon1 ∧
       0 ≤ haversine_distance lat1 lon1 lat2 lon2) := by
  intro lat1 lon1 lat2 lon2 _ _ _ _ _ _ _ _
  exact ⟨⟨haversine_self lat1 lon1, haversine_symm lat1 lon1 lat2 lon2,
      haversine_nonneg lat1 lon1 lat2 lon2⟩,
    ⟨haversine_distance_self lat1 lon1,
      haversine_distance_symm lat1 lon1 lat2 lon2,
      haversine_distance_nonneg lat1 lon1 lat2 lon2⟩⟩

/-- Witness for C7 at the concrete coordinates (37, 127) and (36, 128). -/
theorem C7_distance_zero_symmetric_nonneg_witness :
    ((-90:ℝ) ≤ 37 ∧ (37:ℝ) ≤ 90 ∧ (-90:ℝ) ≤ 36 ∧ (36:ℝ) ≤ 90 ∧
     (-180:ℝ) ≤ 127 ∧ (127:ℝ) ≤ 180 ∧ (-180:ℝ) ≤ 128 ∧ (128:ℝ) ≤ 180) ∧
    ((haversine 37 127 37 127 = 0 ∧
      haversine 37 127 36 128 = haversine 36 128 37 127 ∧
      0 ≤ haversine 37 127 36 128) ∧
     (haversine_distance 37 127 37 127 = 0 ∧
      haversine_distance 37 127 36 128 = haversine_distance 36 128 37 127 ∧
      0 ≤ haversine_distance 37 127 36 128)) :=
  ⟨by norm_num,
   C7_distance_zero_symmetric_nonneg 37 127 36 128 (by norm_num) (by norm_num)
     (by norm_num) (by norm_num) (by norm_num) (by norm_num) (by norm_num)
     (by norm_num)⟩

/-! ## The greedy deduplicator (C1, C5, C6, C9) -/

lemma wdist_self (w : Waypoint) : wdist w w = 0 :=
  haversine_self w.lat w.lon

lemma wdist_symm (a b : Waypoint) : wdist a b = wdist b a :=
  haversine_symm a.lat a.lon b.lat b.lon

lemma remove_duplicates_concat (xs : List Waypoint) (r : ℝ) (w : Waypoint) :
    remove_duplicates (xs ++ [w]) r = dedupStep r (remove_duplicates xs r) w :=
  List.foldl_concat (dedupStep r) [] w xs

lemma dedup_go_sublist (r : ℝ) (xs : List Waypoint) :
    ∀ u : List Waypoint, ∃ v, xs.foldl (dedupStep r) u = u ++ v ∧ v.Sublist xs := by
  induction xs with
  | nil => exact fun u => ⟨[], by simp⟩
  | cons x xs ih =>
    intro u
    show ∃ v, xs.foldl (dedupStep r) (dedupStep r u x) = u ++ v ∧ v.Sublist (x :: xs)
    by_cases h : ∃ e ∈ u, wdist x e ≤ r
    · obtain ⟨v, hv, hsub⟩ := ih u
      rw [dedupStep, if_pos h]
      exact ⟨v, hv, hsub.cons x⟩
    · obtain ⟨v, hv, hsub⟩ := ih (u ++ [x])
      rw [dedupStep, if_neg h]
      exact ⟨x :: v, by rw [hv]; simp, hsub.cons₂ x⟩

open Classical in
/-- C1: `remove_duplicates` returns a subsequence of its input
(first-seen order, records unchanged), starting from the empty accepted
list, and a candidate appended at the end is dropped iff its haversine
distance to some record already accepted into the output-so-far is at
most the radius. -/
theorem C1_remove_duplicates_greedy :
    ∀ (xs : List Waypoint) (r : ℝ) (w : Waypoint),
      (remove_duplicates xs r).Sublist xs ∧
      remove_duplicates ([] : List Waypoint) r = [] ∧
      remove_duplicates (xs ++ [w]) r =
        (if ∃ e ∈ remove_duplicates xs r, wdist w e ≤ r
         then remove_duplicates xs r
         else remove_duplicates xs r ++ [w]) := by
  intro xs r w
  refine ⟨?_, rfl, ?_⟩
  · obtain ⟨v, hv, hsub⟩ := dedup_go_sublist r xs []
    rw [remove_duplicates, hv]
    simpa using hsub
  · rw [remove_duplicates_concat]
    rfl

lemma dedupStep_pairwise {r : ℝ} {u : List Waypoint}
    (h : u.Pairwise (wpSeparated r)) (w : Waypoint) :
    (dedupStep r u w).Pairwise (wpSeparated r) := by
  rw [dedupStep]
  split_ifs with hc
  · exact h
  · rw [List.pairwise_append]
    refine ⟨h, by simp, ?_⟩
    intro a ha b hb
    rw [List.mem_singleton] at hb
    subst hb
    push_neg at hc
    have h1 : r < wdist b a := hc a ha
    exact ⟨by rwa [wdist_symm a b], h1⟩

lemma dedup_go_pairwise (r : ℝ) (xs : List Waypoint) :
    ∀ u, u.Pairwise (wpSeparated r) →
      (xs.foldl (dedupStep r) u).Pairwise (wpSeparated r) := by
  induction xs with
  | nil => exact fun u h => h
  | cons x xs ih => exact fun u h => ih _ (dedupStep_pairwise h x)

/-- C9: any two records of the deduplicated output are more than the
radius apart (in both argument orders of the distance). -/
theorem C9_output_pairwise_separated :
    ∀ (xs : List Waypoint) (r : ℝ),
      (remove_duplicates xs r).Pairwise (wpSeparated r) :=
  fun xs r => dedup_go_pairwise r xs [] List.Pairwise.nil

lemma dedup_go_keepAll (r : ℝ) (ys : List Waypoint) :
    ∀ u, (∀ y ∈ ys, ∀ e ∈ u, ¬ wdist y e ≤ r) →
      ys.Pairwise (fun a b => ¬ wdist b a ≤ r) →
      ys.foldl (dedupStep r) u = u ++ ys := by
  induction ys with
  | nil => intro u _ _; simp
  | cons y ys ih =>
    intro u hcross hpw
    rcases List.pairwise_cons.mp hpw with ⟨hy, hys⟩
    have hstep : dedupStep r u y = u ++ [y] := by
      rw [dedupStep, if_neg]
      rintro ⟨e, he, hle⟩
      exact hcross y (List.mem_cons_self _ _) e he hle
    show ys.foldl (dedupStep r) (dedupStep r u y) = u ++ y :: ys
    rw [hstep, ih (u ++ [y]) ?_ hys]
    · simp
    · intro z hz e he
      rcases List.mem_append.mp he with he | he
      · exact hcross z (List.mem_cons_of_mem _ hz) e he
      · rw [List.mem_singleton] at he
        subst he
        exact hy z hz

/-- C5: deduplication is idempotent — re-running `remove_duplicates` on
its own output drops nothing further. -/
theorem C5_remove_duplicates_idempotent :
    ∀ (xs : List Waypoint) (r : ℝ),
      remove_duplicates (remove_duplicates xs r) r = remove_duplicates xs r := by
  intro xs r
  have hpw : (remove_duplicates xs r).Pairwise (wpSeparated r) :=
    dedup_go_pairwise r xs [] List.Pairwise.nil
  have hpw2 : (remove_duplicates xs r).Pairwise (fun a b => ¬ wdist b a ≤ r) :=
    hpw.imp (fun h => not_le.mpr h.2)
  rw [remove_duplicates, dedup_go_keepAll r _ [] (by simp) hpw2]
  simp

lemma dedupStep_length (r : ℝ) (u : List Waypoint) (w : Waypoint) :
    (dedupStep r u w).length ≤ u.length + 1 := by
  rw [dedupStep]
  split_ifs <;> simp

lemma dedup_go_length (r : ℝ) (xs : List Waypoint) :
    ∀ u, (xs.foldl (dedupStep r) u).length ≤ u.length + xs.length := by
  induction xs with
  | nil => simp
  | cons x xs ih =>
    intro u
    have h1 : (xs.foldl (dedupStep r) (dedupStep r u x)).length ≤
        (dedupStep r u x).length + xs.length := ih _
    have h2 := dedupStep_length r u x
    simp only [List.foldl_cons, List.length_cons]
    omega

lemma dedup_go_dropAll (r : ℝ) (xs : List Waypoint) :
    ∀ u, (∀ y ∈ xs, ∃ e ∈ u, wdist y e ≤ r) → xs.foldl (dedupStep r) u = u := by
  induction xs with
  | nil => intro u _; rfl
  | cons x xs ih =>
    intro u h
    have hstep : dedupStep r u x = u := by
      rw [dedupStep, if_pos (h x (List.mem_cons_self _ _))]
    show xs.foldl (dedupStep r) (dedupStep r u x) = u
    rw [hstep]
    exact ih u (fun y hy => h y (List.mem_cons_of_mem _ hy))

/-- C6 (amended): deduplication never increases the record count, never
drops the first record of the input, and when the entire input is one
cluster pairwise within the radius the output is exactly the first
record in input order. -/
theorem C6_dedup_length_first_and_cluster :
    (∀ (xs : List Waypoint) (r : ℝ),
       (remove_duplicates xs r).length ≤ xs.length) ∧
    (∀ (x : Waypoint) (xs : List Waypoint) (r : ℝ),
       ∃ rest, remove_duplicates (x :: xs) r = x :: rest) ∧
    (∀ (x : Waypoint) (xs : List Waypoint) (r : ℝ),
       (∀ a ∈ x :: xs, ∀ b ∈ x :: xs, wdist a b ≤ r) →
       remove_duplicates (x :: xs) r = [x]) := by
  refine ⟨?_, ?_, ?_⟩
  · intro xs r
    have := dedup_go_length r xs []
    simpa [remove_duplicates] using this
  · intro x xs r
    have hstep : dedupStep r [] x = [x] := by simp [dedupStep]
    obtain ⟨v, hv, _⟩ := dedup_go_sublist r xs [x]
    refine ⟨v, ?_⟩
    show xs.foldl (dedupStep r) (dedupStep r [] x) = x :: v
    rw [hstep, hv]
    rfl
  · intro x xs r h
    have hstep : dedupStep r [] x = [x] := by simp [dedupStep]
    show xs.foldl (dedupStep r) (dedupStep r [] x) = [x]
    rw [hstep]
    refine dedup_go_dropAll r xs [x] ?_
    intro y hy
    exact ⟨x, List.mem_cons_self _ _,
      h y (List.mem_cons_of_mem _ hy) x (List.mem_cons_self _ _)⟩

/-- Witness for C6: five copies of the same reef record (mutual distance
0 ≤ 10) are collapsed to the single first record. -/
theorem C6_dedup_length_first_and_cluster_witness :
    (∀ a ∈ sampleReef :: List.replicate 4 sampleReef,
       ∀ b ∈ sampleReef :: List.replicate 4 sampleReef, wdist a b ≤ 10) ∧
    remove_duplicates (sampleReef :: List.replicate 4 sampleReef) 10 =
      [sampleReef] := by
  have hmem : ∀ a ∈ sampleReef :: List.replicate 4 sampleReef, a = sampleReef := by
    intro a ha
    rcases List.mem_cons.mp ha with rfl | h
    · rfl
    · exact List.eq_of_mem_replicate h
  have hall : ∀ a ∈ sampleReef :: List.replicate 4 sampleReef,
      ∀ b ∈ sampleReef :: List.replicate 4 sampleReef, wdist a b ≤ 10 := by
    intro a ha b hb
    rw [hmem a ha, hmem b hb, wdist_self]
    norm_num
  exact ⟨hall,
    C6_dedup_length_first_and_cluster.2.2 sampleReef (List.replicate 4 sampleReef)
      10 hall⟩

/-- On the equator the haversine distance is exactly the Earth radius
times the longitude difference in radians (for differences up to
180°). -/
lemma haversine_equator {x y : ℝ} (hxy : x ≤ y) (hle : y - x ≤ 180) :
    haversine 0 x 0 y = 6371000 * (radians y - radians x) := by
  have hpi := Real.pi_pos
  have hd : radians y - radians x = (y - x) * Real.pi / 180 := by
    rw [radians, radians]; ring
  have h0 : 0 ≤ radians y - radians x := by
    rw [hd]
    have hyx : 0 ≤ y - x := sub_nonneg.mpr hxy
    positivity
  have h2 : (radians y - radians x) / 2 ≤ Real.pi / 2 := by
    rw [hd]
    nlinarith
  have hsin : 0 ≤ Real.sin ((radians y - radians x) / 2) :=
    Real.sin_nonneg_of_nonneg_of_le_pi (by linarith) (by linarith)
  rw [haversine, show radians 0 = 0 by simp [radians]]
  simp only [sub_self, zero_div, Real.sin_zero, ne_eq, OfNat.ofNat_ne_zero,
    not_false_eq_true, zero_pow, Real.cos_zero, one_mul, zero_add]
  rw [Real.sqrt_sq hsin, Real.arcsin_sin (by linarith) h2]
  ring

lemma wdist_cw_ca_le : wdist cw ca ≤ 10 := by
  have h : wdist cw ca = haversine 0 0 0 0.00005 := rfl
  rw [h, haversine_equator (by norm_num) (by norm_num), radians, radians]
  nlinarith [Real.pi_lt_d2, Real.pi_pos]

lemma wdist_ca_cb_le : wdist ca cb ≤ 10 := by
  have h : wdist ca cb = haversine 0 0.00005 0 0.0001 := rfl
  rw [h, haversine_equator (by norm_num) (by norm_num), radians, radians]
  nlinarith [Real.pi_lt_d2, Real.pi_pos]

lemma wdist_cw_cb_gt : ¬ wdist cw cb ≤ 10 := by
  have h : wdist cw cb = haversine 0 0 0 0.0001 := rfl
  rw [h, haversine_equator (by norm_num) (by norm_num), radians, radians]
  push_neg
  nlinarith [Real.pi_gt_d6]

lemma wdist_cb_cw_gt : ¬ wdist cb cw ≤ 10 := by
  rw [wdist_symm]
  exact wdist_cw_cb_gt

/-- Counterexample for C6 as stated: `{ca, cb}` is a maximal cluster
(pairwise within 10 m, not extendable by `cw`, which is more than 10 m
from `cb`), yet its first member `ca` is dropped, because the earlier
accepted record `cw` lies within 10 m of `ca`. -/
theorem C6_counterexample_maximal_cluster_first_dropped :
    wdist ca cb ≤ 10 ∧ wdist cb ca ≤ 10 ∧
    ¬ wdist cw cb ≤ 10 ∧ ¬ wdist cb cw ≤ 10 ∧
    wdist cw ca ≤ 10 ∧
    remove_duplicates [cw, ca, cb] 10 = [cw, cb] ∧
    ca ∉ remove_duplicates [cw, ca, cb] 10 := by
  have s1 : dedupStep 10 [] cw = [cw] := by simp [dedupStep]
  have s2 : dedupStep 10 [cw] ca = [cw] := by
    rw [dedupStep, if_pos]
    exact ⟨cw, List.mem_singleton_self cw,
      by rw [wdist_symm]; exact wdist_cw_ca_le⟩
  have s3 : dedupStep 10 [cw] cb = [cw, cb] := by
    rw [dedupStep, if_neg]
    · rfl
    · rintro ⟨e, he, hle⟩
      rw [List.mem_singleton] at he
      subst he
      exact wdist_cb_cw_gt hle
  have heval : remove_duplicates [cw, ca, cb] 10 = [cw, cb] := by
    show List.foldl (dedupStep 10) [] [cw, ca, cb] = [cw, cb]
    rw [List.foldl_cons, s1, List.foldl_cons, s2, List.foldl_cons, s3,
      List.foldl_nil]
  have hne1 : ca ≠ cw := by
    intro h
    have h2 : ca.original_name = cw.original_name := by rw [h]
    exact absurd h2 (by decide)
  have hne2 : ca ≠ cb := by
    intro h
    have h2 : ca.original_name = cb.original_name := by rw [h]
    exact absurd h2 (by decide)
  refine ⟨wdist_ca_cb_le, by rw [wdist_symm]; exact wdist_ca_cb_le,
    wdist_cw_cb_gt, wdist_cb_cw_gt, wdist_cw_ca_le, heval, ?_⟩
  rw [heval]
  intro hmem
  rcases List.mem_cons.mp hmem with h | h
  · exact hne1 h
  · rw [List.mem_singleton] at h
    exact hne2 h

/-! ## The region split (C4) -/

open Classical in
/-- C4: an `'own'`-source waypoint goes to the west bucket iff its
longitude is strictly below the 127.5° boundary and to the east bucket
iff its longitude is at least the boundary; each such waypoint lands in
exactly one bucket, while the statically tagged source lists are carried
into their region's list wholesale, with no longitude check. -/
theorem C4_longitude_partition :
    ∀ (my_points : List Waypoint) (p : Waypoint),
      (p ∈ (splitOwn my_points).1 ↔ p ∈ my_points ∧ p.lon < LON_BOUNDARY) ∧
      (p ∈ (splitOwn my_points).2 ↔ p ∈ my_points ∧ LON_BOUNDARY ≤ p.lon) ∧
      (p ∈ my_points →
        (p ∈ (splitOwn my_points).1 ∧ p ∉ (splitOwn my_points).2) ∨
        (p ∉ (splitOwn my_points).1 ∧ p ∈ (splitOwn my_points).2)) ∧
      (∀ west_reef west_other east_reef : List Waypoint,
        (∀ q ∈ west_reef, q ∈ collectWest west_reef west_other my_points) ∧
        (∀ q ∈ west_other, q ∈ collectWest west_reef west_other my_points) ∧
        (∀ q ∈ east_reef, q ∈ collectEast east_reef my_points)) := by
  intro my_points p
  have h1 : p ∈ (splitOwn my_points).1 ↔ p ∈ my_points ∧ p.lon < LON_BOUNDARY := by
    simp [splitOwn, List.mem_filter]
  have h2 : p ∈ (splitOwn my_points).2 ↔ p ∈ my_points ∧ LON_BOUNDARY ≤ p.lon := by
    simp [splitOwn, List.mem_filter]
  refine ⟨h1, h2, ?_, ?_⟩
  · intro hp
    rcases lt_or_le p.lon LON_BOUNDARY with hlt | hle
    · exact Or.inl ⟨h1.mpr ⟨hp, hlt⟩, fun hc => absurd (h2.mp hc).2 (not_le.mpr hlt)⟩
    · exact Or.inr ⟨fun hc => absurd (h1.mp hc).2 (not_lt.mpr hle), h2.mpr ⟨hp, hle⟩⟩
  · intro west_reef west_other east_reef
    refine ⟨?_, ?_, ?_⟩
    · intro q hq
      exact List.mem_append.mpr (Or.inl (List.mem_append.mpr (Or.inl hq)))
    · intro q hq
      exact List.mem_append.mpr (Or.inl (List.mem_append.mpr (Or.inr hq)))
    · intro q hq
      exact List.mem_append.mpr (Or.inl hq)

/-- Witness for C4: a record at boundary−0.1 is bucketed west, a record
exactly on the boundary east; a statically west-tagged record is in the
west list regardless of longitude. -/
theorem C4_longitude_partition_witness :
    ownWest ∈ (splitOwn [ownWest, ownEast]).1 ∧
    ownEast ∈ (splitOwn [ownWest, ownEast]).2 ∧
    ((ownEast ∈ (splitOwn [ownWest, ownEast]).1 ∧
      ownEast ∉ (splitOwn [ownWest, ownEast]).2) ∨
     (ownEast ∉ (splitOwn [ownWest, ownEast]).1 ∧
      ownEast ∈ (splitOwn [ownWest, ownEast]).2)) ∧
    sampleReef ∈ collectWest [sampleReef] [] [ownWest, ownEast] := by
  have h := C4_longitude_partition [ownWest, ownEast]
  refine ⟨?_, ?_, ?_, ?_⟩
  · exact (h ownWest).1.mpr ⟨by simp, by norm_num [ownWest, LON_BOUNDARY]⟩
  · exact (h ownEast).2.1.mpr ⟨by simp, by norm_num [ownEast, LON_BOUNDARY]⟩
  · exact (h ownEast).2.2.1 (by simp)
  · exact ((h sampleReef).2.2.2 [sampleReef] [] []).1 sampleReef
      (List.mem_singleton_self sampleReef)

/-! ## The parser's error behaviour (C8) -/

lemma parseGo_eq (st : String) (elems : List RawWpt) :
    ∀ acc, parseGo st elems acc =
      acc ++ (elems.takeWhile rawOk).map (convertRawD st) := by
  induction elems with
  | nil => intro acc; simp [parseGo]
  | cons e rest ih =>
    intro acc
    rcases hlat : e.lat with _ | la
    · have hok : rawOk e = false := by simp [rawOk, hlat]
      simp [parseGo, hlat, List.takeWhile_cons, hok]
    · rcases hlon : e.lon with _ | lo
      · have hok : rawOk e = false := by simp [rawOk, hlon]
        simp [parseGo, hlat, hlon, List.takeWhile_cons, hok]
      · have hok : rawOk e = true := by simp [rawOk, hlat, hlon]
        have hconv : convertRawD st e = convertRaw st e la lo := by
          simp [convertRawD, hlat, hlon]
        simp [parseGo, hlat, hlon, List.takeWhile_cons, hok, hconv, ih]

/-- C8 (amended): a document that cannot be parsed contributes zero
records; a coordinate-conversion failure aborts the element loop, and
the parse contributes exactly the records converted before the failing
element (all of them when no element fails). -/
theorem C8_parse_failure_keeps_earlier_records :
    ∀ (st : String) (elems : List RawWpt),
      parse_waypoints none st = [] ∧
      parse_waypoints (some elems) st =
        (elems.takeWhile rawOk).map (convertRawD st) ∧
      (parseFailed (some elems) = false →
        parse_waypoints (some elems) st = elems.map (convertRawD st)) := by
  intro st elems
  have hbase : parse_waypoints (some elems) st =
      (elems.takeWhile rawOk).map (convertRawD st) := by
    simpa using parseGo_eq st elems []
  refine ⟨rfl, hbase, ?_⟩
  intro hok
  rw [hbase]
  have hall : elems.takeWhile rawOk = elems := by
    rw [List.takeWhile_eq_self_iff]
    intro e he
    have hfail : ∀ x ∈ elems, ¬x.lat = none ∧ ¬x.lon = none := by
      simpa [parseFailed] using hok
    rcases hfail e he with ⟨h1, h2⟩
    rcases hl : e.lat with _ | la
    · exact absurd hl h1
    · rcases ho : e.lon with _ | lo
      · exact absurd ho h2
      · simp [rawOk, hl, ho]
  rw [hall]

/-- Witness for C8 at a one-element document with convertible
coordinates: no failure, and every element is contributed. -/
theorem C8_parse_failure_keeps_earlier_records_witness :
    parseFailed (some [rawGoodEx]) = false ∧
    parse_waypoints (some [rawGoodEx]) "reef" =
      [rawGoodEx].map (convertRawD "reef") :=
  ⟨rfl, (C8_parse_failure_keeps_earlier_records "reef" [rawGoodEx]).2.2 rfl⟩

/-- Counterexample for C8 as stated: a document whose second element has
a non-convertible latitude is reported as failed, yet it contributes the
one record parsed before the failure — not zero records. -/
theorem C8_counterexample_partial_not_zero :
    parse_waypoints (some [rawGoodEx, rawBadEx]) "reef" ≠ [] ∧
    (parse_waypoints (some [rawGoodEx, rawBadEx]) "reef").length = 1 ∧
    parseFailed (some [rawGoodEx, rawBadEx]) = true := by
  have h : parse_waypoints (some [rawGoodEx, rawBadEx]) "reef" =
      [convertRaw "reef" rawGoodEx 37 127] := rfl
  refine ⟨?_, ?_, rfl⟩
  · rw [h]
    exact List.cons_ne_nil _ _
  · rw [h]
    rfl

/-! ## The short-name generator (C3) -/

lemma pfxCount_append (l1 l2 : List Waypoint) (p : String) :
    pfxCount (l1 ++ l2) p = pfxCount l1 p + pfxCount l2 p := by
  simp [pfxCount, List.filter_append]

lemma pfxCount_singleton (w : Waypoint) (p : String) :
    pfxCount [w] p = if namePfx w = p then 1 else 0 := by
  by_cases h : namePfx w = p <;> simp [pfxCount, List.filter_cons, h]

lemma gen_go (xs : List Waypoint) :
    ∀ (pre out : List Waypoint),
      xs.foldl genStep ((fun p => pfxCount pre p), out) =
        ((fun p => pfxCount (pre ++ xs) p), out ++ nameRun pre xs) := by
  induction xs with
  | nil => intro pre out; simp [nameRun]
  | cons w ws ih =>
    intro pre out
    have hcnt : (fun k => if k = namePfx w then pfxCount pre (namePfx w) + 1
        else pfxCount pre k) = (fun p => pfxCount (pre ++ [w]) p) := by
      funext p
      rw [pfxCount_append, pfxCount_singleton]
      by_cases h : p = namePfx w
      · subst h
        simp
      · rw [if_neg h, if_neg (fun hh => h hh.symm)]
        omega
    show ws.foldl genStep (genStep ((fun p => pfxCount pre p), out) w) = _
    simp only [genStep, withName]
    rw [hcnt, ih (pre ++ [w]), nameRun]
    simp [withName]

lemma generate_short_names_eq_nameRun (xs : List Waypoint) :
    generate_short_names xs = nameRun [] xs := by
  have h0 : (fun _ : String => 0) = (fun p => pfxCount ([] : List Waypoint) p) := by
    funext p; rfl
  rw [generate_short_names, h0, gen_go xs [] []]
  simp

lemma nameRun_length (xs : List Waypoint) :
    ∀ pre, (nameRun pre xs).length = xs.length := by
  induction xs with
  | nil => intro pre; rfl
  | cons w ws ih => intro pre; simp [nameRun, ih]

lemma nameRun_getElem? (xs : List Waypoint) :
    ∀ (pre : List Waypoint) (k : Nat) (w : Waypoint), xs[k]? = some w →
      (nameRun pre xs)[k]? =
        some (withName w (pfxCount (pre ++ xs.take (k+1)) (namePfx w))) := by
  induction xs with
  | nil => intro pre k w h; simp at h
  | cons x xs ih =>
    intro pre k w h
    cases k with
    | zero =>
      rw [List.getElem?_cons_zero, Option.some.injEq] at h
      subst h
      rw [nameRun, List.getElem?_cons_zero, Option.some.injEq]
      have hc : pfxCount (pre ++ (x :: xs).take 1) (namePfx x) =
          pfxCount pre (namePfx x) + 1 := by
        rw [show (x :: xs).take 1 = [x] by rfl, pfxCount_append,
          pfxCount_singleton, if_pos rfl]
      rw [hc]
    | succ k =>
      rw [List.getElem?_cons_succ] at h
      rw [nameRun, List.getElem?_cons_succ, ih (pre ++ [x]) k w h]
      have hl : (pre ++ [x]) ++ xs.take (k+1) = pre ++ (x :: xs).take (k+1+1) := by
        rw [List.take_succ_cons]
        simp
      rw [hl]

lemma generate_short_names_getElem? (xs : List Waypoint) (k : Nat) (w : Waypoint)
    (h : xs[k]? = some w) :
    (generate_short_names xs)[k]? =
      some (withName w (pfxCount (xs.take (k+1)) (namePfx w))) := by
  rw [generate_short_names_eq_nameRun, nameRun_getElem? xs [] k w h]
  simp

lemma generate_short_names_length (xs : List Waypoint) :
    (generate_short_names xs).length = xs.length := by
  rw [generate_short_names_eq_nameRun, nameRun_length]

lemma decDigitsAux_eq_digits :
    ∀ (fuel n : Nat), n ≤ fuel → decDigitsAux fuel n = Nat.digits 10 n := by
  intro fuel
  induction fuel with
  | zero =>
    intro n h
    interval_cases n
    rw [Nat.digits_zero]
    rfl
  | succ fuel ih =>
    intro n h
    cases n with
    | zero =>
      rw [Nat.digits_zero]
      rfl
    | succ n =>
      have hle : (n + 1) / 10 ≤ fuel := by
        have := Nat.div_lt_self (Nat.succ_pos n) (by norm_num : (1:Nat) < 10)
        omega
      rw [decDigitsAux, ih ((n + 1) / 10) hle,
        Nat.digits_def' (by norm_num : (1:Nat) < 10) (Nat.succ_pos n)]

lemma decDigits_eq_digits (n : Nat) : decDigits n = Nat.digits 10 n :=
  decDigitsAux_eq_digits n n le_rfl

lemma natToDigitChars_eq (n : Nat) :
    natToDigitChars n = ((Nat.digits 10 n).reverse).map digitChar10 := by
  rw [natToDigitChars, decDigits_eq_digits]

lemma digitChar10_ne_underscore {d : Nat} (h : d < 10) : digitChar10 d ≠ '_' := by
  interval_cases d <;> decide

lemma digitChar10_ne_zero_char {d : Nat} (hlt : d < 10) (h : d ≠ 0) :
    digitChar10 d ≠ '0' := by
  interval_cases d
  · exact absurd rfl h
  all_goals decide

lemma digitChar10_inj {d1 d2 : Nat} (h1 : d1 < 10) (h2 : d2 < 10)
    (h : digitChar10 d1 = digitChar10 d2) : d1 = d2 := by
  interval_cases d1 <;> interval_cases d2 <;> revert h <;> decide

lemma mem_natToDigitChars {n : Nat} {c : Char} (h : c ∈ natToDigitChars n) :
    ∃ d, d < 10 ∧ c = digitChar10 d := by
  rw [natToDigitChars_eq] at h
  rcases List.mem_map.mp h with ⟨d, hd, rfl⟩
  exact ⟨d, Nat.digits_lt_base (by norm_num) (List.mem_reverse.mp hd), rfl⟩

lemma underscore_notMem_natToDigitChars (n : Nat) : '_' ∉ natToDigitChars n := by
  intro h
  rcases mem_natToDigitChars h with ⟨d, hd, hc⟩
  exact digitChar10_ne_underscore hd hc.symm

lemma natToDigitChars_head_ne_zero {n : Nat} (hn : n ≠ 0) {c : Char}
    {cs : List Char} (h : natToDigitChars n = c :: cs) : c ≠ '0' := by
  have hne : Nat.digits 10 n ≠ [] := Nat.digits_ne_nil_iff_ne_zero.mpr hn
  have hh : (natToDigitChars n).head? = some c := by rw [h]; rfl
  rw [natToDigitChars_eq, List.head?_map, List.head?_reverse,
    List.getLast?_eq_getLast _ hne] at hh
  simp only [Option.map_some', Option.some.injEq] at hh
  have hd10 : (Nat.digits 10 n).getLast hne < 10 :=
    Nat.digits_lt_base (by norm_num) (List.getLast_mem hne)
  have hdne : (Nat.digits 10 n).getLast hne ≠ 0 := Nat.getLast_digit_ne_zero 10 hn
  exact hh ▸ digitChar10_ne_zero_char hd10 hdne

lemma replicate_zero_append_inj :
    ∀ (a : Nat) (D1 : List Char) (b : Nat) (D2 : List Char),
      (∀ c cs, D1 = c :: cs → c ≠ '0') → (∀ c cs, D2 = c :: cs → c ≠ '0') →
      List.replicate a '0' ++ D1 = List.replicate b '0' ++ D2 → D1 = D2 := by
  intro a
  induction a with
  | zero =>
    intro D1 b D2 h1 h2 h
    cases b with
    | zero => simpa using h
    | succ b =>
      rw [List.replicate_zero, List.nil_append, List.replicate_succ,
        List.cons_append] at h
      exact absurd rfl (h1 _ _ h)
  | succ a ih =>
    intro D1 b D2 h1 h2 h
    cases b with
    | zero =>
      rw [List.replicate_zero, List.nil_append, List.replicate_succ,
        List.cons_append] at h
      exact absurd rfl (h2 _ _ h.symm)
    | succ b =>
      rw [List.replicate_succ, List.replicate_succ, List.cons_append,
        List.cons_append, List.cons.injEq] at h
      exact ih D1 b D2 h1 h2 h.2

lemma format03_data (n : Nat) :
    (format03 n).data =
      List.replicate (3 - (natToDigitChars n).length) '0' ++ natToDigitChars n :=
  rfl

lemma format03_no_underscore (n : Nat) : '_' ∉ (format03 n).data := by
  rw [format03_data]
  intro h
  rcases List.mem_append.mp h with h | h
  · exact absurd (List.eq_of_mem_replicate h) (by decide)
  · exact underscore_notMem_natToDigitChars n h

lemma format03_data_ne_nil (n : Nat) : (format03 n).data ≠ [] := by
  rw [format03_data]
  intro h
  rcases List.append_eq_nil.mp h with ⟨h1, h2⟩
  rw [h2] at h1
  simp at h1

lemma natToDigitChars_inj_aux :
    ∀ (l1 l2 : List Nat), (∀ d ∈ l1, d < 10) → (∀ d ∈ l2, d < 10) →
      l1.map digitChar10 = l2.map digitChar10 → l1 = l2 := by
  intro l1
  induction l1 with
  | nil =>
    intro l2 _ _ h
    cases l2 with
    | nil => rfl
    | cons e es => simp at h
  | cons d ds ih =>
    intro l2 h1 h2 h
    cases l2 with
    | nil => simp at h
    | cons e es =>
      rw [List.map_cons, List.map_cons, List.cons.injEq] at h
      have hde : d = e := digitChar10_inj (h1 d (List.mem_cons_self _ _))
        (h2 e (List.mem_cons_self _ _)) h.1
      rw [hde]
      exact congrArg (List.cons e)
        (ih es (fun x hx => h1 x (List.mem_cons_of_mem _ hx))
          (fun x hx => h2 x (List.mem_cons_of_mem _ hx)) h.2)

lemma natToDigitChars_inj {m n : Nat}
    (h : natToDigitChars m = natToDigitChars n) : m = n := by
  rw [natToDigitChars_eq, natToDigitChars_eq] at h
  have hrev := natToDigitChars_inj_aux (Nat.digits 10 m).reverse
    (Nat.digits 10 n).reverse
    (fun d hd => Nat.digits_lt_base (by norm_num) (List.mem_reverse.mp hd))
    (fun d hd => Nat.digits_lt_base (by norm_num) (List.mem_reverse.mp hd)) h
  have hd : Nat.digits 10 m = Nat.digits 10 n := List.reverse_inj.mp hrev
  calc m = Nat.ofDigits 10 (Nat.digits 10 m) := (Nat.ofDigits_digits 10 m).symm
    _ = Nat.ofDigits 10 (Nat.digits 10 n) := by rw [hd]
    _ = n := Nat.ofDigits_digits 10 n

lemma format03_inj {m n : Nat} (hm : m ≠ 0) (hn : n ≠ 0)
    (h : format03 m = format03 n) : m = n := by
  have hdata := congrArg String.data h
  rw [format03_data, format03_data] at hdata
  have hD := replicate_zero_append_inj _ _ _ _
    (fun c cs hc => natToDigitChars_head_ne_zero hm hc)
    (fun c cs hc => natToDigitChars_head_ne_zero hn hc) hdata
  exact natToDigitChars_inj hD

lemma splitAtUnderscore :
    ∀ (w1 w2 z1 z2 : List Char), '_' ∉ w1 → '_' ∉ w2 →
      w1 ++ '_' :: z1 = w2 ++ '_' :: z2 → w1 = w2 ∧ z1 = z2 := by
  intro w1
  induction w1 with
  | nil =>
    intro w2 z1 z2 _ h2 h
    cases w2 with
    | nil => simpa using h
    | cons b t =>
      rw [List.nil_append, List.cons_append, List.cons.injEq] at h
      exact absurd (h.1 ▸ List.mem_cons_self b t) h2
  | cons a t ih =>
    intro w2 z1 z2 h1 h2 h
    cases w2 with
    | nil =>
      rw [List.nil_append, List.cons_append, List.cons.injEq] at h
      exact absurd (h.1 ▸ List.mem_cons_self a t) h1
    | cons b t2 =>
      rw [List.cons_append, List.cons_append, List.cons.injEq] at h
      obtain ⟨rfl, hrest⟩ := h
      obtain ⟨hw, hz⟩ := ih t2 z1 z2 (fun hx => h1 (List.mem_cons_of_mem _ hx))
        (fun hx => h2 (List.mem_cons_of_mem _ hx)) hrest
      exact ⟨by rw [hw], hz⟩

lemma shortName_inj {p1 p2 : String} {c1 c2 : Nat} (h1 : c1 ≠ 0) (h2 : c2 ≠ 0)
    (h : p1 ++ "_" ++ format03 c1 = p2 ++ "_" ++ format03 c2) :
    p1 = p2 ∧ c1 = c2 := by
  have hdata := congrArg String.data h
  rw [String.data_append, String.data_append, String.data_append,
    String.data_append,
    show ("_" : String).data = ['_'] from rfl, List.append_assoc,
    List.append_assoc, List.singleton_append, List.singleton_append] at hdata
  have hrev := congrArg List.reverse hdata
  rw [List.reverse_append, List.reverse_append, List.reverse_cons,
    List.reverse_cons, List.append_assoc, List.append_assoc,
    List.singleton_append, List.singleton_append] at hrev
  obtain ⟨hf, hp⟩ := splitAtUnderscore (format03 c1).data.reverse
    (format03 c2).data.reverse p1.data.reverse p2.data.reverse
    (fun hx => format03_no_underscore c1 (List.mem_reverse.mp hx))
    (fun hx => format03_no_underscore c2 (List.mem_reverse.mp hx)) hrev
  refine ⟨String.ext (List.reverse_inj.mp hp), ?_⟩
  exact format03_inj h1 h2 (String.ext (List.reverse_inj.mp hf))

lemma pfxCount_take_succ (xs : List Waypoint) (k : Nat) (hk : k < xs.length)
    (p : String) :
    pfxCount (xs.take (k+1)) p =
      pfxCount (xs.take k) p + (if namePfx xs[k] = p then 1 else 0) := by
  rw [List.take_succ, List.getElem?_eq_getElem hk, pfxCount_append]
  simp [pfxCount_singleton]

lemma pfxCount_take_mono (xs : List Waypoint) {k m : Nat} (h : k ≤ m)
    (p : String) :
    pfxCount (xs.take k) p ≤ pfxCount (xs.take m) p := by
  have hsub : (xs.take k).Sublist (xs.take m) := by
    rw [show xs.take k = (xs.take m).take k from by
      rw [List.take_take, Nat.min_eq_left h]]
    exact List.take_sublist k (xs.take m)
  exact List.Sublist.length_le (hsub.filter _)

lemma pfxCount_take_pos (xs : List Waypoint) (k : Nat) (hk : k < xs.length) :
    pfxCount (xs.take (k+1)) (namePfx xs[k]) ≠ 0 := by
  rw [pfxCount_take_succ xs k hk, if_pos rfl]
  omega

lemma generate_short_names_unique (xs : List Waypoint) :
    (generate_short_names xs).Pairwise (fun a b => a.short_name ≠ b.short_name) := by
  rw [List.pairwise_iff_getElem]
  intro i j hi hj hij
  have hlen := generate_short_names_length xs
  have hxi : i < xs.length := by omega
  have hxj : j < xs.length := by omega
  have hgi := generate_short_names_getElem? xs i xs[i] (List.getElem?_eq_getElem hxi)
  have hgj := generate_short_names_getElem? xs j xs[j] (List.getElem?_eq_getElem hxj)
  rw [List.getElem?_eq_getElem hi, Option.some.injEq] at hgi
  rw [List.getElem?_eq_getElem hj, Option.some.injEq] at hgj
  rw [hgi, hgj]
  intro heq
  simp only [withName, Option.some.injEq] at heq
  obtain ⟨hp, hc⟩ := shortName_inj (pfxCount_take_pos xs i hxi)
    (pfxCount_take_pos xs j hxj) heq
  have hmono : pfxCount (xs.take (i+1)) (namePfx xs[j]) ≤
      pfxCount (xs.take j) (namePfx xs[j]) :=
    pfxCount_take_mono xs (by omega) _
  have hsucc := pfxCount_take_succ xs j hxj (namePfx xs[j])
  rw [if_pos rfl] at hsucc
  rw [hp] at hc
  omega

lemma format03_wide {n : Nat} (h : 1000 ≤ n) :
    format03 n = String.mk (natToDigitChars n) ∧
      4 ≤ (natToDigitChars n).length := by
  have hlt : n < 10 ^ (Nat.digits 10 n).length :=
    Nat.lt_base_pow_length_digits (by norm_num)
  have hlen : 4 ≤ (Nat.digits 10 n).length := by
    by_contra hcon
    push_neg at hcon
    have hle : 10 ^ (Nat.digits 10 n).length ≤ 10 ^ 3 :=
      Nat.pow_le_pow_right (by norm_num) (by omega)
    norm_num at hle
    omega
  have hlen' : 4 ≤ (natToDigitChars n).length := by
    rw [natToDigitChars_eq, List.length_map, List.length_reverse]
    exact hlen
  constructor
  · rw [format03, show 3 - (natToDigitChars n).length = 0 from by omega]
    exact congrArg String.mk (List.nil_append _)
  · exact hlen'

lemma generate_concrete :
    (generate_short_names (List.replicate 5 sampleReef)).map
        (fun w => w.short_name) =
      [some "사각_001", some "사각_002", some "사각_003", some "사각_004",
       some "사각_005"] := by
  rfl

/-- C3: every record receives exactly one short name
`{prefix}_{counter:03d}` where the counter is the number of records with
the same prefix among the first `k+1` records of this invocation's input
(so counters start at 1, increase in iteration order, and reset per
invocation); the rendering widens beyond 3 digits for counters ≥ 1000;
all short names are unique; and five records classified `사각` receive
`사각_001` … `사각_005`. -/
theorem C3_generate_short_names_counters :
    (∀ xs : List Waypoint, (generate_short_names xs).length = xs.length) ∧
    (∀ (xs : List Waypoint) (k : Nat) (w : Waypoint), xs[k]? = some w →
      (generate_short_names xs)[k]? =
        some (withName w (pfxCount (xs.take (k+1)) (namePfx w)))) ∧
    (∀ xs : List Waypoint,
      (generate_short_names xs).Pairwise (fun a b => a.short_name ≠ b.short_name)) ∧
    (∀ n : Nat, 1000 ≤ n →
      format03 n = String.mk (natToDigitChars n) ∧
        4 ≤ (natToDigitChars n).length) ∧
    (generate_short_names (List.replicate 5 sampleReef)).map
        (fun w => w.short_name) =
      [some "사각_001", some "사각_002", some "사각_003", some "사각_004",
       some "사각_005"] :=
  ⟨generate_short_names_length, generate_short_names_getElem?,
   generate_short_names_unique, fun _ h => format03_wide h, generate_concrete⟩

/-- Witness for C3 at the five-record input and at counter 1000. -/
theorem C3_generate_short_names_counters_witness :
    (List.replicate 5 sampleReef)[0]? = some sampleReef ∧
    (generate_short_names (List.replicate 5 sampleReef))[0]? =
      some (withName sampleReef
        (pfxCount ((List.replicate 5 sampleReef).take 1) (namePfx sampleReef))) ∧
    1000 ≤ 1000 ∧
    (format03 1000 = String.mk (natToDigitChars 1000) ∧
      4 ≤ (natToDigitChars 1000).length) :=
  ⟨rfl,
   C3_generate_short_names_counters.2.1 (List.replicate 5 sampleReef) 0
     sampleReef rfl,
   by norm_num,
   C3_generate_short_names_counters.2.2.2.1 1000 (by norm_num)⟩

/-! ## The duplicate report (C10) -/

lemma filterMap_ite {α β : Type} (p : α → Prop) [DecidablePred p] (f : α → β)
    (l : List α) :
    l.filterMap (fun a => if p a then some (f a) else none) =
      (l.filter (fun a => decide (p a))).map f := by
  induction l with
  | nil => rfl
  | cons a l ih =>
    by_cases h : p a <;> simp [List.filterMap_cons, List.filter_cons, h, ih]

lemma range_filter_lt (i : Nat) :
    ∀ n, (List.range n).filter (fun j => decide (i < j)) =
      List.range' (i + 1) (n - (i + 1)) := by
  intro n
  induction n with
  | zero => simp
  | succ n ih =>
    rw [List.range_succ, List.filter_append, ih]
    by_cases h : i < n
    · have hfil : List.filter (fun j => decide (i < j)) [n] = [n] := by simp [h]
      rw [hfil, show n + 1 - (i + 1) = (n - (i + 1)) + 1 from by omega,
        List.range'_concat, show i + 1 + 1 * (n - (i + 1)) = n from by omega]
    · have hfil : List.filter (fun j => decide (i < j)) [n] = [] := by simp [h]
      rw [hfil, show n + 1 - (i + 1) = 0 from by omega,
        show n - (i + 1) = 0 from by omega]
      simp

lemma find_duplicates_eq_spec (ws : List GWaypoint) (t : ℝ) :
    find_duplicates ws t = dup_spec ws t := by
  rw [find_duplicates, dup_spec, allPairsLex]
  rw [show (List.range ws.length).product (List.range ws.length) =
    (List.range ws.length).flatMap
      (fun i => (List.range ws.length).map (fun j => (i, j))) from rfl]
  rw [List.filter_flatMap, List.filter_flatMap, List.map_flatMap]
  refine congrArg _ (funext fun i => ?_)
  rw [filterMap_ite (fun j => gdistAt ws i j ≤ t) (fun j => mkEntry ws i j),
    ← range_filter_lt i ws.length]
  simp [List.filter_map, List.map_map, Function.comp, List.filter_filter]

lemma allPairsLex_pairwise (n : Nat) :
    (allPairsLex n).Pairwise (fun p q : Nat × Nat =>
      p.1 < q.1 ∨ (p.1 = q.1 ∧ p.2 < q.2)) := by
  apply List.Pairwise.filter
  rw [show (List.range n).product (List.range n) =
    (List.range n).flatMap (fun i => (List.range n).map (fun j => (i, j))) from
    rfl]
  rw [List.pairwise_flatMap]
  constructor
  · intro i _
    refine List.Pairwise.map _ ?_ (List.pairwise_lt_range n)
    intro a b hab
    exact Or.inr ⟨rfl, hab⟩
  · refine (List.pairwise_lt_range n).imp ?_
    intro i1 i2 h12 x hx y hy
    rcases List.mem_map.mp hx with ⟨a, _, rfl⟩
    rcases List.mem_map.mp hy with ⟨b, _, rfl⟩
    exact Or.inl h12

lemma find_duplicates_pairwise (ws : List GWaypoint) (t : ℝ) :
    (find_duplicates ws t).Pairwise entryLexLt := by
  rw [find_duplicates_eq_spec, dup_spec]
  refine List.Pairwise.map _ ?_
    (List.Pairwise.filter _ (allPairsLex_pairwise ws.length))
  intro p q h
  exact h

lemma allPairsLex_mem (n : Nat) (p : Nat × Nat) :
    p ∈ allPairsLex n ↔ p.1 < p.2 ∧ p.2 < n := by
  rcases p with ⟨i, j⟩
  rw [allPairsLex, List.mem_filter]
  simp only [List.pair_mem_product, List.mem_range, decide_eq_true_eq]
  constructor
  · rintro ⟨⟨_, h2⟩, h3⟩
    exact ⟨h3, h2⟩
  · rintro ⟨h1, h2⟩
    exact ⟨⟨by omega, h2⟩, h1⟩

/-- C10: the duplicate report equals the lexicographically ordered list
of index pairs `(i, j)`, `i < j < n`, whose distance is within the
threshold, each mapped to its report entry (indices, names, sources,
coordinates and rounded distance); the report is strictly
lexicographically increasing in the index fields, so each qualifying
pair appears exactly once and no other pair appears. -/
theorem C10_find_duplicates_lex_pairs :
    ∀ (ws : List GWaypoint) (t : ℝ),
      find_duplicates ws t = dup_spec ws t ∧
      (∀ p : Nat × Nat, p ∈ allPairsLex ws.length ↔ p.1 < p.2 ∧ p.2 < ws.length) ∧
      (find_duplicates ws t).Pairwise entryLexLt :=
  fun ws t => ⟨find_duplicates_eq_spec ws t, allPairsLex_mem ws.length,
    find_duplicates_pairwise ws t⟩

end BoatFishing
